import Mathlib

/-!
Verification of the code-grep pattern matching, search, structural filtering
and replacement engine, shallowly embedded from the Rust sources
(`src/matcher.rs`, `src/searcher.rs`, `src/replacer.rs`, `src/cli.rs`).

Strings are modelled as `List Char`; byte offsets of the Rust code become
character offsets (the reasoning of every claim is offset-arithmetic that is
insensitive to this choice).  Rust's `str::to_lowercase` is modelled
character-wise with `Char.toLower`.  The external regex engines
(`regex::Regex`, `fancy_regex::Regex`) are not part of this repository; a
compiled regex is modelled as an opaque-to-us function value
`List Char → List Match` supplied by the engine, and theorems that need the
engine's documented guarantees take them as an explicit `RegexContract`
hypothesis.
-/

namespace CodeGrep

/-- Character strings, modelling Rust `&str` / `String` contents. -/
abbrev Str := List Char

/-- Character-wise lowercasing, modelling `str::to_lowercase`. -/
def toLowerS (s : Str) : Str := s.map Char.toLower

/-- The opening brace character (written via its code point to keep it out of
string literals). -/
def lbrace : Char := Char.ofNat 123

/-- The closing brace character, likewise via its code point. -/
def rbrace : Char := Char.ofNat 125

/-- `Match` from `src/matcher.rs`: start/end offsets into the line plus the
matched text. -/
structure Match where
  start : Nat
  «end» : Nat
  text : Str
deriving DecidableEq, Repr

/-- `Match::len` from `src/matcher.rs`. -/
def Match.len (m : Match) : Nat := m.«end» - m.start

/-- Leftmost occurrence of `pat` in the haystack, modelling Rust
`str::find(&str)`: the smallest index at which `pat` is a prefix of the
corresponding suffix. -/
def strFind (pat : Str) : Str → Option Nat
  | [] => if pat.isPrefixOf ([] : Str) then some 0 else none
  | c :: rest =>
      if pat.isPrefixOf (c :: rest) then some 0
      else (strFind pat rest).map (· + 1)

/-- Rust `str::contains`, via `strFind`. -/
def containsSub (s pat : Str) : Bool := (strFind pat s).isSome

/-- The literal-scan loop of `PatternMatcher::find_matches` (matcher.rs lines
90-106): repeatedly `find` the lowercased pattern in the lowercased text
from `start` on, record a match at the absolute position with `end = start
+ pattern.len()` and the slice of the original text, then resume one
position past the hit's start.  `fuel` bounds the iteration count;
`low.length + 1` never runs out for a non-empty pattern, since each
iteration strictly increases `start`. -/
def litLoopAux : Nat → Str → Str → Str → Str → Nat → List Match
  | 0, _, _, _, _, _ => []
  | fuel + 1, low, spat, pat, text, start =>
      match strFind spat (low.drop start) with
      | none => []
      | some pos =>
          let a := start + pos
          { start := a, «end» := a + pat.length,
            text := (text.drop a).take pat.length }
            :: litLoopAux fuel low spat pat text (a + 1)

/-- `PatternMatcher` from `src/matcher.rs`.  `Basic` and `Fancy` carry the
match function provided by the compiled external regex engine. -/
inductive PatternMatcher where
  | Literal (pattern : Str)
  | Basic (find : Str → List Match)
  | Fancy (find : Str → List Match)
  | Multiple (matchers : List PatternMatcher)

mutual

/-- `PatternMatcher::find_matches` (matcher.rs lines 88-136).  The `Fancy`
arm's `filter_map(|m| m.ok())` is absorbed into the engine function, which
already yields the successful matches in order.  In the `Multiple` arm the
Rust code indexes `matchers[0]`, which panics on an empty vector
(`PatternMatcher::new` never constructs one); the model returns `[]`
there. -/
def find_matches : PatternMatcher → Str → List Match
  | .Literal pattern, text =>
      litLoopAux (text.length + 1) (toLowerS text) (toLowerS pattern) pattern text 0
  | .Basic find, text => find text
  | .Fancy find, text => find text
  | .Multiple matchers, text =>
      if allMatchersHit matchers text then
        match matchers with
        | [] => []
        | m :: _ => find_matches m text
      else []

/-- `matchers.iter().all(|matcher| !matcher.find_matches(text).is_empty())`
from the `Multiple` arm of `find_matches`. -/
def allMatchersHit : List PatternMatcher → Str → Bool
  | [], _ => true
  | m :: rest, text => !(find_matches m text).isEmpty && allMatchersHit rest text

end

/-- `PatternMatcher::is_match` (matcher.rs lines 138-140). -/
def is_match (p : PatternMatcher) (text : Str) : Bool :=
  !(find_matches p text).isEmpty

/-- The start offsets at which `spat` occurs in `low`, restricted to offsets
at least `start`, in increasing order. -/
def occStarts (low spat : Str) (start : Nat) : List Nat :=
  (List.range' start (low.length - start)).filter
    (fun p => spat.isPrefixOf (low.drop p))

/-- The match record the literal scan builds for a hit at offset `a`. -/
def mkM (pat text : Str) (a : Nat) : Match :=
  { start := a, «end» := a + pat.length, text := (text.drop a).take pat.length }

/-- The guarantees of the external regex engines' `find_iter` (documented
behaviour of the `regex` and `fancy_regex` crates): successive
non-overlapping matches, in order, each lying within the line and carrying
the matched slice.  Matches of nullable patterns may be empty
(`start = end`), so no strict `start < end` is assumed. -/
def RegexContract (find : Str → List Match) : Prop :=
  ∀ text : Str,
    (∀ m ∈ find text, m.start ≤ m.«end» ∧ m.«end» ≤ text.length ∧
        m.text = (text.drop m.start).take (m.«end» - m.start))
    ∧ List.Pairwise (fun a b : Match => a.«end» ≤ b.start) (find text)

/-- Patterns as actually constructed by `PatternMatcher::new`: literal
patterns are non-empty strings and regex arms hold engine-produced match
functions. -/
inductive WF : PatternMatcher → Prop
  | lit {pat : Str} : pat ≠ [] → WF (.Literal pat)
  | basic {find : Str → List Match} : RegexContract find → WF (.Basic find)
  | fancy {find : Str → List Match} : RegexContract find → WF (.Fancy find)
  | mult {ms : List PatternMatcher} : (∀ m ∈ ms, WF m) → WF (.Multiple ms)

/-- `ReplacementResult` from `src/replacer.rs`. -/
structure ReplacementResult where
  file_path : Str
  original_content : Str
  new_content : Str
  replacements_made : Nat
  lines_affected : List Nat
deriving DecidableEq, Repr

/-- Rust `str::trim`: drop leading and trailing whitespace. -/
def trimS (s : Str) : Str :=
  ((s.dropWhile Char.isWhitespace).reverse.dropWhile Char.isWhitespace).reverse

/-- `input.trim().to_lowercase()` applied to one line read from stdin
(replacer.rs line 127). -/
def normInput (s : Str) : Str := toLowerS (trimS s)

/-- The valid responses of the interactive prompt. -/
def validResponses : List Str :=
  ["y".toList, "yes".toList, "n".toList, "no".toList,
   "a".toList, "all".toList, "q".toList, "quit".toList]

/-- The inner `loop` of `Replacer::interactive_replacement` (replacer.rs lines
121-155): keep reading inputs, re-prompting on anything invalid, until a
valid normalized response arrives; `none` when the input stream is
exhausted (the Rust code would then re-prompt forever, as `read_line`
keeps returning an empty read at EOF). -/
def readValidInput : List Str → Option (Str × List Str)
  | [] => none
  | inp :: rest =>
      let t := normInput inp
      if t ∈ validResponses then some (t, rest) else readValidInput rest

/-- The outer `for result in results` loop of
`Replacer::interactive_replacement`, carrying the full `results` slice
because the `a` branch re-reads it: that branch pushes the current result
and then appends `results[confirmed_results.len()..]` - the slice origin
is the length of the confirmed list, not the current iteration index. -/
def interactiveAux (results : List ReplacementResult) :
    List ReplacementResult → List Str → List ReplacementResult → List ReplacementResult
  | [], _, confirmed => confirmed
  | r :: rem, inputs, confirmed =>
      match readValidInput inputs with
      | none => confirmed
      | some (t, rest) =>
          if t = "y".toList ∨ t = "yes".toList then
            interactiveAux results rem rest (confirmed ++ [r])
          else if t = "n".toList ∨ t = "no".toList then
            interactiveAux results rem rest confirmed
          else if t = "a".toList ∨ t = "all".toList then
            (confirmed ++ [r]) ++ results.drop (confirmed ++ [r]).length
          else confirmed

/-- `Replacer::interactive_replacement` (replacer.rs lines 115-159) as a
function of the pending results and the stream of stdin lines. -/
def interactive_replacement (results : List ReplacementResult)
    (inputs : List Str) : List ReplacementResult :=
  interactiveAux results results inputs []

/-- A first pending replacement result, for concrete runs. -/
def exR0 : ReplacementResult := ⟨['f', '0'], [], [], 1, [1]⟩

/-- A second pending replacement result, distinct from the first. -/
def exR1 : ReplacementResult := ⟨['f', '1'], [], [], 1, [1]⟩

/-- Strip one trailing carriage return, as Rust `str::lines` does for a
segment terminated by a CRLF. -/
def stripTrailingCr (l : Str) : Str :=
  if l.getLast? = some '\r' then l.dropLast else l

/-- Accumulator loop for `rustLines`; `cur` holds the current line reversed. -/
def rustLinesAux : Str → Str → List Str
  | cur, [] => if cur.isEmpty then [] else [cur.reverse]
  | cur, c :: rest =>
      if c = '\n' then stripTrailingCr cur.reverse :: rustLinesAux [] rest
      else rustLinesAux (c :: cur) rest

/-- Rust `str::lines`: split at each newline, strip a carriage return
preceding each newline, and do not yield a final empty line when the
content ends with a terminator. -/
def rustLines (s : Str) : List Str := rustLinesAux [] s

/-- The command-line options the core components read (`src/cli.rs`),
restricted to the fields `PatternMatcher::new`,
`Cli::is_structured_search` and `SearchEngine` consume. -/
structure Cli where
  pattern : Option Str
  «and» : List Str
  «or» : List Str
  literal : Bool
  regex : Bool
  fancy_regex : Bool
  case_sensitive : Bool
  word_boundary : Bool
  functions : Bool
  in_function : Option Str
  in_class : Option Str
  in_scope : List Str
  imports_only : Bool
  comments_only : Bool

/-- A `Cli` with every option off, to build concrete configurations from. -/
def cliOff : Cli :=
  ⟨none, [], [], false, false, false, false, false, false, none, none, [], false, false⟩

/-- `Cli::is_structured_search` (cli.rs lines 344-351). -/
def Cli.is_structured_search (cli : Cli) : Bool :=
  cli.functions || cli.in_function.isSome || cli.in_class.isSome ||
    !cli.in_scope.isEmpty || cli.imports_only || cli.comments_only

/-- Rust `str::starts_with(&str)`. -/
def startsWith (s pre : Str) : Bool := pre.isPrefixOf s

/-- Rust `str::ends_with(&str)`. -/
def endsWith (s suf : Str) : Bool := suf.isSuffixOf s

/-- `SearchEngine::is_comment_line` (searcher.rs lines 195-207); the file's
extension stands in for the `&Path` argument, whose only use is
`path.extension()`. -/
def is_comment_line (line : Str) (ext : Option Str) : Bool :=
  let trimmed := trimS line
  match ext with
  | some e =>
      if e = "rs".toList ∨ e = "js".toList ∨ e = "ts".toList ∨ e = "go".toList ∨
          e = "java".toList ∨ e = "c".toList ∨ e = "cpp".toList then
        startsWith trimmed "//".toList || startsWith trimmed "/*".toList ||
          endsWith trimmed "*/".toList
      else if e = "py".toList then startsWith trimmed "#".toList
      else if e = "rb".toList then startsWith trimmed "#".toList
      else if e = "sh".toList then startsWith trimmed "#".toList
      else startsWith trimmed "#".toList || startsWith trimmed "//".toList
  | none => startsWith trimmed "#".toList || startsWith trimmed "//".toList

/-- `SearchEngine::is_import_line` (searcher.rs lines 209-222). -/
def is_import_line (line : Str) (ext : Option Str) : Bool :=
  let trimmed := trimS line
  match ext with
  | some e =>
      if e = "rs".toList then
        startsWith trimmed "use ".toList || startsWith trimmed "extern crate".toList
      else if e = "go".toList then startsWith trimmed "import ".toList
      else if e = "js".toList ∨ e = "ts".toList then
        startsWith trimmed "import ".toList ||
          (startsWith trimmed "const ".toList && containsSub trimmed "require(".toList)
      else if e = "py".toList then
        startsWith trimmed "import ".toList || startsWith trimmed "from ".toList
      else if e = "java".toList then startsWith trimmed "import ".toList
      else containsSub trimmed "import".toList || containsSub trimmed "require".toList
  | none => containsSub trimmed "import".toList || containsSub trimmed "require".toList

/-- `SearchEngine::is_function_line` (searcher.rs lines 224-243). -/
def is_function_line (line : Str) (ext : Option Str) : Bool :=
  let trimmed := trimS line
  match ext with
  | some e =>
      if e = "rs".toList then
        startsWith trimmed "fn ".toList || containsSub trimmed " fn ".toList
      else if e = "go".toList then startsWith trimmed "func ".toList
      else if e = "js".toList ∨ e = "ts".toList then
        startsWith trimmed "function ".toList ||
          containsSub trimmed "function(".toList ||
          containsSub trimmed "=> ".toList ||
          (containsSub trimmed "(".toList && containsSub trimmed [lbrace])
      else if e = "py".toList then startsWith trimmed "def ".toList
      else if e = "java".toList then
        (containsSub trimmed "public ".toList || containsSub trimmed "private ".toList ||
            containsSub trimmed "protected ".toList) &&
          containsSub trimmed "(".toList && containsSub trimmed ")".toList
      else containsSub trimmed "function".toList || startsWith trimmed "def ".toList
  | none => containsSub trimmed "function".toList || startsWith trimmed "def ".toList

/-- `line.matches(lbrace).count() - line.matches(rbrace).count()` as used with
a running `i32` count in `is_in_function` / `is_in_class`. -/
def braceDelta (line : Str) : Int :=
  (line.count lbrace : Int) - (line.count rbrace : Int)

/-- The brace balance summed over lines `i ..= q` (searcher.rs lines 254-259):
every brace character counts, including ones inside string or comment
literals. -/
def braceSum (lines : List Str) (i q : Nat) : Int :=
  ((List.range' i (q + 1 - i)).map (fun j => braceDelta (lines.getD j []))).sum

/-- The declaration test of `is_in_function`'s backward scan: the trimmed line
is a function-declaration line and contains the target name (searcher.rs
line 252). -/
def isNamedFnDecl (lines : List Str) (name : Str) (ext : Option Str) (d : Nat) : Bool :=
  let line := trimS (lines.getD d [])
  is_function_line line ext && containsSub line name

/-- The `for i in (0..=line_num).rev()` scan of `is_in_function`: at the first
(nearest) declaration line the loop returns `brace_count > 0` and never
continues to earlier declarations. -/
def is_in_functionAux (lines : List Str) (line_num : Nat) (name : Str)
    (ext : Option Str) : Nat → Bool
  | 0 =>
      if isNamedFnDecl lines name ext 0 then decide (0 < braceSum lines 0 line_num)
      else false
  | i + 1 =>
      if isNamedFnDecl lines name ext (i + 1) then
        decide (0 < braceSum lines (i + 1) line_num)
      else is_in_functionAux lines line_num name ext i

/-- `SearchEngine::is_in_function` (searcher.rs lines 245-264). -/
def is_in_function (lines : List Str) (line_num : Nat) (name : Str)
    (ext : Option Str) : Bool :=
  is_in_functionAux lines line_num name ext line_num

/-- The declaration test of `is_in_class`'s backward scan (searcher.rs line
270). -/
def isNamedClassDecl (lines : List Str) (name : Str) (d : Nat) : Bool :=
  let line := trimS (lines.getD d [])
  startsWith line "class ".toList && containsSub line name

/-- The backward scan of `is_in_class`. -/
def is_in_classAux (lines : List Str) (line_num : Nat) (name : Str) : Nat → Bool
  | 0 =>
      if isNamedClassDecl lines name 0 then decide (0 < braceSum lines 0 line_num)
      else false
  | i + 1 =>
      if isNamedClassDecl lines name (i + 1) then
        decide (0 < braceSum lines (i + 1) line_num)
      else is_in_classAux lines line_num name i

/-- `SearchEngine::is_in_class` (searcher.rs lines 266-281); the `_path`
argument is unused in the source and omitted. -/
def is_in_class (lines : List Str) (line_num : Nat) (name : Str) : Bool :=
  is_in_classAux lines line_num name line_num

/-- The `include_line` computation of `SearchEngine::apply_structured_filters`
(searcher.rs lines 160-185): `include_line` starts `true` and each active
option overwrites it, in the fixed order comments-only, imports-only,
functions, in-function, in-class. -/
def lineIncluded (cli : Cli) (lines : List Str) (line_num : Nat) (line : Str)
    (ext : Option Str) : Bool :=
  let include0 := true
  let include1 := if cli.comments_only then is_comment_line line ext else include0
  let include2 := if cli.imports_only then is_import_line line ext else include1
  let include3 := if cli.functions then is_function_line line ext else include2
  let include4 :=
    match cli.in_function with
    | some fname => is_in_function lines line_num fname ext
    | none => include3
  let include5 :=
    match cli.in_class with
    | some cname => is_in_class lines line_num cname
    | none => include4
  include5

/-- `SearchEngine::apply_structured_filters` (searcher.rs lines 154-193): keep
the lines whose `include_line` ends up `true` and join them with a single
newline. -/
def apply_structured_filters (cli : Cli) (content : Str) (ext : Option Str) : Str :=
  let lines := rustLines content
  List.intercalate ['\n']
    ((lines.enum.filter (fun p => lineIncluded cli lines p.1 p.2 ext)).map
      (fun p => p.2))

/-- The as-built line admission rule, stated directly: only the LAST active
structural option in the order comments-only, imports-only, functions, in-
function, in-class decides; used to state the amended C8. -/
def lastActiveFilter (cli : Cli) (lines : List Str) (line_num : Nat) (line : Str)
    (ext : Option Str) : Bool :=
  match cli.in_class with
  | some cname => is_in_class lines line_num cname
  | none =>
      match cli.in_function with
      | some fname => is_in_function lines line_num fname ext
      | none =>
          if cli.functions then is_function_line line ext
          else if cli.imports_only then is_import_line line ext
          else if cli.comments_only then is_comment_line line ext
          else true

/-- A configuration with both comments-only and imports-only active. -/
def cli8 : Cli := { cliOff with imports_only := true, comments_only := true }

/-- `CodeGrepError` from `src/lib.rs` (the variants the core can produce). -/
inductive CGError where
  | Io (msg : Str)
  | Regex (msg : Str)
  | FancyRegex (msg : Str)
  | Config (msg : Str)
deriving DecidableEq, Repr

/-- The regex metacharacters of the literal-vs-regex auto-detection in
`create_single_matcher` (matcher.rs line 77). -/
def isMetaChar (c : Char) : Bool :=
  c = '.' || c = '*' || c = '+' || c = '?' || c = '^' || c = '$' || c = '|' ||
    c = '[' || c = ']' || c = '(' || c = ')' || c = lbrace || c = rbrace || c = '\\'

/-- The word-boundary wrap of the pattern: a backslash-b assertion on each
side. -/
def wordWrap (p : Str) : Str := ['\\', 'b'] ++ p ++ ['\\', 'b']

/-- The `cli.regex` branch of `create_single_matcher` (matcher.rs lines
62-74): apply the word-boundary wrap, then hand the pattern and the case-
insensitivity flag to the basic engine's builder. -/
def buildBasic (compileB : Str → Bool → Except CGError (Str → List Match))
    (pattern : Str) (cli : Cli) : Except CGError PatternMatcher :=
  let rp := if cli.word_boundary then wordWrap pattern else pattern
  (compileB rp (!cli.case_sensitive)).map PatternMatcher.Basic

/-- The `cli.fancy_regex` branch of `create_single_matcher` (matcher.rs lines
47-61): word-boundary wrap, then a literal "(?i)" prefix unless case-
sensitive, then compile with the fancy engine. -/
def buildFancy (compileF : Str → Except CGError (Str → List Match))
    (pattern : Str) (cli : Cli) : Except CGError PatternMatcher :=
  let rp := if cli.word_boundary then wordWrap pattern else pattern
  let rp2 := if cli.case_sensitive then rp else "(?i)".toList ++ rp
  (compileF rp2).map PatternMatcher.Fancy

/-- `PatternMatcher::create_single_matcher` (matcher.rs lines 44-86).  The
source's auto-detect branch recurses once with `regex := true` on an
otherwise identical `Cli`; that call lands in the `cli.regex` branch, so
it is inlined here as a direct call to `buildBasic` (which reads only the
unchanged `word_boundary` and `case_sensitive` fields). -/
def create_single_matcher (compileB : Str → Bool → Except CGError (Str → List Match))
    (compileF : Str → Except CGError (Str → List Match))
    (pattern : Str) (cli : Cli) : Except CGError PatternMatcher :=
  if cli.literal then .ok (.Literal pattern)
  else if cli.fancy_regex then buildFancy compileF pattern cli
  else if cli.regex then buildBasic compileB pattern cli
  else if pattern.any isMetaChar then buildBasic compileB pattern cli
  else .ok (.Literal pattern)

/-- The loop of the AND branch of `PatternMatcher::new`: compile each pattern
string, propagating the first failure. -/
def collectMatchers (compileB : Str → Bool → Except CGError (Str → List Match))
    (compileF : Str → Except CGError (Str → List Match)) (cli : Cli) :
    List Str → Except CGError (List PatternMatcher)
  | [] => .ok []
  | p :: rest => do
      let m ← create_single_matcher compileB compileF p cli
      let ms ← collectMatchers compileB compileF cli rest
      pure (m :: ms)

/-- `PatternMatcher::new` (matcher.rs lines 14-42). -/
def PatternMatcher.new (compileB : Str → Bool → Except CGError (Str → List Match))
    (compileF : Str → Except CGError (Str → List Match)) (cli : Cli) :
    Except CGError PatternMatcher :=
  if cli.«and» ≠ [] then
    let base : List Str := match cli.pattern with | some p => [p] | none => []
    (collectMatchers compileB compileF cli (base ++ cli.«and»)).map PatternMatcher.Multiple
  else if cli.«or» ≠ [] then
    let pat : Str :=
      match cli.pattern with
      | some p => ['('] ++ p ++ ['|'] ++ List.intercalate ['|'] cli.«or» ++ [')']
      | none => ['('] ++ List.intercalate ['|'] cli.«or» ++ [')']
    create_single_matcher compileB compileF pat cli
  else
    match cli.pattern with
    | some p => create_single_matcher compileB compileF p cli
    | none => .error (.Config "No pattern provided".toList)

/-- `LineMatch` from `src/matcher.rs`. -/
structure LineMatch where
  line_number : Nat
  line_text : Str
  «matches» : List Match
deriving DecidableEq, Repr

/-- `LineMatch::has_matches`. -/
def LineMatch.has_matches (lm : LineMatch) : Bool := !lm.«matches».isEmpty

/-- `find_in_text` (matcher.rs lines 177-189): 1-based line numbers over
`text.lines()`, keeping only lines with at least one match. -/
def find_in_text (text : Str) (matcher : PatternMatcher) : List LineMatch :=
  (rustLines text).enum.filterMap (fun p =>
    let ms := find_matches matcher p.2
    if !ms.isEmpty then some ⟨p.1 + 1, p.2, ms⟩ else none)

/-- `FileMatch` from `src/searcher.rs`. -/
structure FileMatch where
  path : Str
  line_matches : List LineMatch
  total_matches : Nat
deriving DecidableEq, Repr

/-- `FileMatch::new` (searcher.rs lines 20-27). -/
def FileMatch.new (path : Str) (lms : List LineMatch) : FileMatch :=
  ⟨path, lms, (lms.map (fun lm => lm.«matches».length)).sum⟩

/-- `FileMatch::has_matches`. -/
def FileMatch.has_matches (fm : FileMatch) : Bool := decide (0 < fm.total_matches)

/-- A candidate file as the search loop sees it: its path, its extension (the
result of `path.extension()`), and `none` content when
`fs::read_to_string` fails. -/
structure SearchFile where
  path : Str
  ext : Option Str
  content : Option Str
deriving DecidableEq, Repr

/-- `SearchEngine` (searcher.rs lines 69-73); the `FileWalker` field is the
external candidate-path provider and carries no failure, so it is not
modelled. -/
structure SearchEngine where
  matcher : PatternMatcher
  cli : Cli

/-- `SearchEngine::new` (searcher.rs lines 76-85): construct the
`PatternMatcher`, propagating its error; no file is touched. -/
def SearchEngine.new (compileB : Str → Bool → Except CGError (Str → List Match))
    (compileF : Str → Except CGError (Str → List Match)) (cli : Cli) :
    Except CGError SearchEngine :=
  (PatternMatcher.new compileB compileF cli).map (fun m => ⟨m, cli⟩)

/-- `SearchEngine::search_file` (searcher.rs lines 140-152): `none` models the
swallowed per-file read error. -/
def search_file (matcher : PatternMatcher) (cli : Cli) (f : SearchFile) :
    Option FileMatch :=
  match f.content with
  | none => none
  | some content =>
      let filtered :=
        if cli.is_structured_search then apply_structured_filters cli content f.ext
        else content
      some (FileMatch.new f.path (find_in_text filtered matcher))

/-- The shared counters and result list of `SearchEngine::search`. -/
structure SearchTally where
  results : List FileMatch
  files_searched : Nat
  total_matches : Nat
  total_lines : Nat
deriving DecidableEq, Repr

/-- One iteration of the per-file loop of `SearchEngine::search` (searcher.rs
lines 104-116): a failed `search_file` leaves everything untouched; a
successful one bumps `files_searched` and, when the file has matches, the
match counters and the shared result list. -/
def searchStep (matcher : PatternMatcher) (cli : Cli) (acc : SearchTally)
    (f : SearchFile) : SearchTally :=
  match search_file matcher cli f with
  | none => acc
  | some fm =>
      if fm.has_matches then
        ⟨acc.results ++ [fm], acc.files_searched + 1,
          acc.total_matches + fm.total_matches,
          acc.total_lines + fm.line_matches.length⟩
      else
        ⟨acc.results, acc.files_searched + 1, acc.total_matches, acc.total_lines⟩

/-- The per-file loop of `SearchEngine::search` over the candidate list (one
sequential order of the data-parallel fan-out). -/
def searchCore (matcher : PatternMatcher) (cli : Cli) (files : List SearchFile) :
    SearchTally :=
  files.foldl (searchStep matcher cli) ⟨[], 0, 0, 0⟩

/-- Lexicographic order on the path's STRING form (byte-wise over the whole
string, separators included).  This is the order the spec and the original
C6 claim assert; it is NOT the order `PathBuf::cmp` uses, and serves only
to state that claim and its counterexample. -/
def strLe : Str → Str → Bool
  | [], _ => true
  | _ :: _, [] => false
  | a :: s, b :: t => if a < b then true else if b < a then false else strLe s t

/-- Strict byte-wise comparison of two path components (`OsStr` ordering). -/
def strLt : Str → Str → Bool
  | [], [] => false
  | [], _ :: _ => true
  | _ :: _, [] => false
  | a :: s, b :: t => if a < b then true else if b < a then false else strLt s t

/-- Accumulator loop for `splitComponents`; `cur` holds the current
component reversed. -/
def splitCompAux : Str → Str → List Str
  | cur, [] => if cur.isEmpty then [] else [cur.reverse]
  | cur, c :: rest =>
      if c = '/' then
        if cur.isEmpty then splitCompAux [] rest
        else cur.reverse :: splitCompAux [] rest
      else splitCompAux (c :: cur) rest

/-- The component list of a path, modelling `Path::components` on the paths
the walker produces: `/`-separated segments, with empty segments (repeated
or trailing separators, and a leading root shared by every compared path)
dropped.  Windows prefix components and the special ordering of `.` / `..`
components against normal ones are outside the model. -/
def splitComponents (p : Str) : List Str := splitCompAux [] p

/-- Lexicographic comparison of component lists (as less-or-equal), each
component compared byte-wise: the shape of `PathBuf`'s `Ord`, which is
component-wise, not a comparison of the path's string form. -/
def componentsLe : List Str → List Str → Bool
  | [], _ => true
  | _ :: _, [] => false
  | c :: cs, d :: ds =>
      if strLt c d then true else if strLt d c then false else componentsLe cs ds

/-- `a.path.cmp(&b.path)` of searcher.rs line 127 as less-or-equal:
`PathBuf::cmp` compares component-wise. -/
def pathLe (a b : Str) : Bool := componentsLe (splitComponents a) (splitComponents b)

/-- `file_matches.sort_by(|a, b| a.path.cmp(&b.path))` (searcher.rs line 127). -/
def sortByPath (rs : List FileMatch) : List FileMatch :=
  rs.mergeSort (fun a b => pathLe a.path b.path)

/-- A collected result for the path "src/a.txt". -/
def fmSrcATxt : FileMatch := ⟨"src/a.txt".toList, [], 0⟩

/-- A collected result for the path "src/a/b.rs". -/
def fmSrcABrs : FileMatch := ⟨"src/a/b.rs".toList, [], 0⟩

/-- `SearchStats` (searcher.rs lines 35-42) without the wall-clock fields
(`elapsed_time`, `search_rate`), which have no pure counterpart. -/
structure SearchStats where
  files_searched : Nat
  files_with_matches : Nat
  total_matches : Nat
  total_lines : Nat
deriving DecidableEq, Repr

/-- `SearchEngine::search` (searcher.rs lines 87-138): run every file, sort
the collected results by path, and return them with the stats; the body
never produces an error. -/
def search (engine : SearchEngine) (files : List SearchFile) :
    Except CGError (List FileMatch × SearchStats) :=
  let t := searchCore engine.matcher engine.cli files
  let sorted := sortByPath t.results
  .ok (sorted, ⟨t.files_searched, sorted.length, t.total_matches, t.total_lines⟩)

/-- A collected result for path "a". -/
def exFmA : FileMatch := ⟨['a'], [], 0⟩

/-- A collected result for path "b". -/
def exFmB : FileMatch := ⟨['b'], [], 0⟩

/-- Fuel-indexed body of `strReplace`; each step consumes at least one
character of the subject, so fuel `s.length` never runs out. -/
def strReplaceFuel (pat rep : Str) : Nat → Str → Str
  | 0, s => s
  | fuel + 1, s =>
      match s with
      | [] => []
      | c :: rest =>
          if pat ≠ [] ∧ pat.isPrefixOf (c :: rest) = true then
            rep ++ strReplaceFuel pat rep fuel ((c :: rest).drop pat.length)
          else c :: strReplaceFuel pat rep fuel rest

/-- Rust `str::replace` for a non-empty needle: replace every non-overlapping
occurrence of `pat`, scanning left to right.  (The code calls this only
with the fixed non-empty needles of `process_replacement`; Rust's
behaviour for an empty needle is not modelled.) -/
def strReplace (pat rep s : Str) : Str := strReplaceFuel pat rep s.length s

/-- The whole-match template token (dollar-zero). -/
def dollar0 : Str := "$0".toList

/-- The braced whole-match template token (built from the brace code points). -/
def dollarBrace0 : Str := ['$', lbrace, '0', rbrace]

/-- `Replacer::process_replacement` (replacer.rs lines 161-175): substitute
the matched text for every occurrence of the two whole-match tokens in the
template; the `_full_line` parameter is unused in the source and omitted. -/
def process_replacement (template matched_text : Str) : Str :=
  let r1 := strReplace dollar0 matched_text template
  strReplace dollarBrace0 matched_text r1

/-- `String::replace_range(start..stop, rep)`. -/
def replaceRangeS (s : Str) (start stop : Nat) (rep : Str) : Str :=
  s.take start ++ rep ++ s.drop stop

/-- The per-line match loop of `Replacer::replace_in_file` (replacer.rs lines
45-62): apply each match left to right, shifting spans by the running
`i32` offset; the `as usize` cast of a negative offset (on which the Rust
`replace_range` call panics) is clamped by `Int.toNat`. -/
def applyMatches (template line : Str) : List Match → Str → Int → Str
  | [], new_line, _ => new_line
  | m :: rest, new_line, offset =>
      let s := ((m.start : Int) + offset).toNat
      let e := ((m.«end» : Int) + offset).toNat
      let rep := process_replacement template m.text
      applyMatches template line rest (replaceRangeS new_line s e rep)
        (offset + (rep.length : Int) - (m.text.length : Int))

/-- What `replace_in_file` does to a single line: the transformed line text
and the number of replacements made on it. -/
def replaceLine (matcher : PatternMatcher) (template line : Str) : Str × Nat :=
  let ms := find_matches matcher line
  if ms.isEmpty then (line, 0)
  else (applyMatches template line ms line 0, ms.length)

/-- The `for (line_num, line) in lines.iter().enumerate()` loop of
`Replacer::replace_in_file` (replacer.rs lines 39-69): (new_lines,
replacements_made, 1-based lines_affected). -/
def replaceLinesAux (matcher : PatternMatcher) (template : Str) :
    List (Nat × Str) → List Str × Nat × List Nat
  | [] => ([], 0, [])
  | (ln, line) :: rest =>
      let r := replaceLinesAux matcher template rest
      let ms := find_matches matcher line
      if ms.isEmpty then (line :: r.1, r.2.1, r.2.2)
      else (applyMatches template line ms line 0 :: r.1, ms.length + r.2.1,
        (ln + 1) :: r.2.2)

/-- The content transformation of `Replacer::replace_in_file` (replacer.rs
lines 29-84): split the content into lines, replace per line, join the new
lines with a single newline. -/
def replace_in_file_content (matcher : PatternMatcher) (template content : Str) :
    Str × Nat × List Nat :=
  let t := replaceLinesAux matcher template (rustLines content).enum
  (List.intercalate ['\n'] t.1, t.2.1, t.2.2)

/-- `Replacer::replace_in_file` on an already-read content: `some`
`ReplacementResult` when at least one replacement was made, else `none`. -/
def replace_in_file (matcher : PatternMatcher) (template path content : Str) :
    Option ReplacementResult :=
  let t := replace_in_file_content matcher template content
  if 0 < t.2.1 then some ⟨path, content, t.1, t.2.1, t.2.2⟩ else none

/-- A failed `strFind` means the needle occurs at no offset. -/
theorem strFind_none (pat : Str) :
    ∀ hay : Str, strFind pat hay = none → ∀ i, ¬ pat.isPrefixOf (hay.drop i) = true
  | [], h, i => by
      simp only [strFind] at h
      intro hp
      rw [List.drop_nil] at hp
      simp [hp] at h
  | c :: rest, h, i => by
      simp only [strFind] at h
      by_cases hp0 : pat.isPrefixOf (c :: rest) = true
      · simp [hp0] at h
      · simp only [hp0, if_neg, ite_false, Bool.false_eq_true, Option.map_eq_none'] at h
        cases i with
        | zero => simpa using hp0
        | succ i =>
            have := strFind_none pat rest h i
            simpa [List.drop_succ_cons] using this

/-- A successful `strFind` returns the least occurrence offset. -/
theorem strFind_some (pat : Str) :
    ∀ (hay : Str) (i : Nat), strFind pat hay = some i →
      pat.isPrefixOf (hay.drop i) = true ∧
        ∀ j, j < i → ¬ pat.isPrefixOf (hay.drop j) = true
  | [], i, h => by
      simp only [strFind] at h
      by_cases hp0 : pat.isPrefixOf ([] : Str) = true
      · simp only [hp0, if_pos, ite_true, Option.some.injEq] at h
        subst h
        exact ⟨by simpa using hp0, by intro j hj; omega⟩
      · simp [hp0] at h
  | c :: rest, i, h => by
      simp only [strFind] at h
      by_cases hp0 : pat.isPrefixOf (c :: rest) = true
      · simp only [hp0, if_pos, ite_true, Option.some.injEq] at h
        subst h
        exact ⟨by simpa using hp0, by intro j hj; omega⟩
      · simp only [hp0, if_neg, ite_false, Bool.false_eq_true, Option.map_eq_some'] at h
        obtain ⟨k, hk, rfl⟩ := h
        obtain ⟨h1, h2⟩ := strFind_some pat rest k hk
        refine ⟨by simpa [List.drop_succ_cons] using h1, ?_⟩
        intro j hj
        cases j with
        | zero => simpa using hp0
        | succ j => simpa [List.drop_succ_cons] using h2 j (by omega)

/-- An occurrence of a non-empty needle fits inside the haystack. -/
theorem occ_le {pat hay : Str} {i : Nat} (hne : pat ≠ [])
    (h : pat.isPrefixOf (hay.drop i) = true) : i + pat.length ≤ hay.length := by
  have hp : pat <+: hay.drop i := List.isPrefixOf_iff_prefix.mp h
  have hl := hp.length_le
  rw [List.length_drop] at hl
  have hpos : 0 < pat.length := List.length_pos.mpr hne
  omega

/-- No occurrence at or past `start` means no recorded offsets. -/
theorem occStarts_eq_nil (low spat : Str) (start : Nat)
    (h : ∀ p, start ≤ p → ¬ spat.isPrefixOf (low.drop p) = true) :
    occStarts low spat start = [] := by
  apply List.filter_eq_nil_iff.mpr
  intro p hp
  exact h p (List.mem_range'_1.mp hp).1

/-- The first occurrence at or past `start` heads the offset list. -/
theorem occStarts_cons (low spat : Str) (start a : Nat) (hne : spat ≠ [])
    (h1 : start ≤ a) (h2 : spat.isPrefixOf (low.drop a) = true)
    (h3 : ∀ p, start ≤ p → p < a → ¬ spat.isPrefixOf (low.drop p) = true) :
    occStarts low spat start = a :: occStarts low spat (a + 1) := by
  have haL : a + spat.length ≤ low.length := occ_le hne h2
  have hpos : 0 < spat.length := List.length_pos.mpr hne
  unfold occStarts
  have hsplit : List.range' start (low.length - start) =
      List.range' start (a - start) ++ List.range' a (low.length - a) := by
    have := List.range'_append start (a - start) (low.length - a) 1
    rw [show start + 1 * (a - start) = a by omega] at this
    rw [show low.length - a + (a - start) = low.length - start by omega] at this
    exact this.symm
  rw [hsplit, List.filter_append]
  have hfst : (List.range' start (a - start)).filter
      (fun p => spat.isPrefixOf (low.drop p)) = [] := by
    apply List.filter_eq_nil_iff.mpr
    intro p hp
    have hmem := List.mem_range'_1.mp hp
    exact h3 p hmem.1 (by omega)
  rw [hfst, List.nil_append]
  rw [show low.length - a = (low.length - (a + 1)) + 1 by omega, List.range'_succ]
  exact List.filter_cons_of_pos h2

/-- The literal scan records exactly the occurrence offsets at or past
`start`, in order, provided the fuel covers the remaining text. -/
theorem litLoopAux_eq (low spat pat text : Str) (hne : spat ≠ []) :
    ∀ (fuel start : Nat), low.length + 1 ≤ fuel + start →
      litLoopAux fuel low spat pat text start = (occStarts low spat start).map (mkM pat text)
  | 0, start, hf => by
      have hz : low.length - start = 0 := by omega
      simp [litLoopAux, occStarts, hz]
  | fuel + 1, start, hf => by
      cases hfind : strFind spat (low.drop start) with
      | none =>
          have hnone := strFind_none spat _ hfind
          have hocc : occStarts low spat start = [] := by
            apply occStarts_eq_nil
            intro p hsp hpref
            have := hnone (p - start)
            rw [List.drop_drop, show start + (p - start) = p by omega] at this
            exact this hpref
          simp [litLoopAux, hfind, hocc]
      | some pos =>
          obtain ⟨hpref, hmin⟩ := strFind_some spat _ pos hfind
          rw [List.drop_drop, Nat.add_comm start pos] at hpref
          have hocc : occStarts low spat start =
              (pos + start) :: occStarts low spat (pos + start + 1) := by
            apply occStarts_cons low spat start (pos + start) hne (by omega) hpref
            intro p hsp hpa
            have := hmin (p - start) (by omega)
            rw [List.drop_drop, show start + (p - start) = p by omega] at this
            exact this
          have hrec := litLoopAux_eq low spat pat text hne fuel (start + pos + 1)
            (by omega)
          simp only [litLoopAux, hfind, hocc, List.map_cons]
          rw [hrec]
          rw [show start + pos = pos + start by omega]
          rfl

/-- `find_matches` on a non-empty literal pattern is the occurrence list of
the lowercased pattern mapped through the match constructor. -/
theorem find_matches_Literal_eq (pat text : Str) (h : pat ≠ []) :
    find_matches (.Literal pat) text
      = (occStarts (toLowerS text) (toLowerS pat) 0).map (mkM pat text) := by
  have hne : toLowerS pat ≠ [] := by
    simp only [toLowerS, ne_eq, List.map_eq_nil_iff]
    exact h
  have hlen : (toLowerS text).length = text.length := by simp [toLowerS]
  simp only [find_matches]
  exact litLoopAux_eq (toLowerS text) (toLowerS pat) pat text hne
    (text.length + 1) 0 (by omega)

/-- The start offsets of a non-empty literal pattern's matches are exactly the
occurrence positions of the lowercased pattern in the lowercased text. -/
theorem literal_map_start (pat text : Str) (h : pat ≠ []) :
    (find_matches (.Literal pat) text).map Match.start
      = (List.range text.length).filter
          (fun p => (toLowerS pat).isPrefixOf ((toLowerS text).drop p)) := by
  rw [find_matches_Literal_eq pat text h, List.map_map]
  have hid : Match.start ∘ mkM pat text = id := by funext a; rfl
  rw [hid, List.map_id]
  unfold occStarts
  rw [List.range_eq_range']
  congr 1
  simp [toLowerS]

/-- C1: for every non-empty literal pattern and every line, `find_matches`
performs a case-insensitive substring scan (pattern and text lower-cased)
left to right, advancing one position past each hit's start, so the
reported match starts are exactly the (possibly overlapping) occurrence
positions of the lower-cased pattern in the lower-cased text, in
increasing order; in particular pattern "aa" against "aaa" yields exactly
the two matches at offsets 0 and 1. -/
theorem C1_literal_overlapping_scan (pat text : Str) (h : pat ≠ []) :
    (find_matches (.Literal pat) text).map Match.start
      = (List.range text.length).filter
          (fun p => (toLowerS pat).isPrefixOf ((toLowerS text).drop p))
    ∧ find_matches (.Literal ['a', 'a']) ['a', 'a', 'a']
        = [⟨0, 2, ['a', 'a']⟩, ⟨1, 3, ['a', 'a']⟩] :=
  ⟨literal_map_start pat text h, by decide⟩

/-- Witness for C1 at pattern "aa", text "aaa". -/
theorem C1_witness :
    (['a', 'a'] ≠ ([] : Str)) ∧
      (find_matches (.Literal ['a', 'a']) ['a', 'a', 'a']).map Match.start
        = (List.range (['a', 'a', 'a'] : Str).length).filter
            (fun p => (toLowerS ['a', 'a']).isPrefixOf
              ((toLowerS ['a', 'a', 'a']).drop p)) :=
  ⟨by decide, (C1_literal_overlapping_scan ['a', 'a'] ['a', 'a', 'a'] (by decide)).1⟩

/-- Lowercasing preserves non-emptiness. -/
theorem toLowerS_ne_nil {pat : Str} (h : pat ≠ []) : toLowerS pat ≠ [] := by
  simp only [toLowerS, ne_eq, List.map_eq_nil_iff]
  exact h

/-- C2 counterexample: the claim asserts the matches of every pattern are
pairwise non-overlapping, but the literal pattern "aa" on the line "aaa"
yields the overlapping matches [0,2) and [1,3). -/
theorem C2_counterexample_literal_matches_overlap :
    ¬ List.Pairwise (fun a b : Match => a.«end» ≤ b.start)
      (find_matches (.Literal ['a', 'a']) ['a', 'a', 'a']) := by decide

/-- The matches of a non-empty literal pattern satisfy the strict span
invariant: start < end, end within the line, text = line[start:end]. -/
theorem literal_bounds (pat text : Str) (hne : pat ≠ []) :
    ∀ m ∈ find_matches (.Literal pat) text,
      m.start < m.«end» ∧ m.«end» ≤ text.length ∧
        m.text = (text.drop m.start).take (m.«end» - m.start) := by
  intro m hm
  rw [find_matches_Literal_eq _ _ hne] at hm
  obtain ⟨a, ha, rfl⟩ := List.mem_map.mp hm
  have hpref : (toLowerS pat).isPrefixOf ((toLowerS text).drop a) = true :=
    (List.mem_filter.mp ha).2
  have hb := occ_le (toLowerS_ne_nil hne) hpref
  have hsl : (toLowerS pat).length = pat.length := by simp [toLowerS]
  have hll : (toLowerS text).length = text.length := by simp [toLowerS]
  have hpos : 0 < pat.length := List.length_pos.mpr hne
  refine ⟨by simp only [mkM]; omega, by simp only [mkM]; omega, ?_⟩
  simp [mkM]

/-- The matches of a non-empty literal pattern have strictly increasing
start offsets. -/
theorem literal_pairwise_lt (pat text : Str) (hne : pat ≠ []) :
    List.Pairwise (fun a b : Match => a.start < b.start)
      (find_matches (.Literal pat) text) := by
  have hmap := literal_map_start pat text hne
  apply List.pairwise_map.mp
  rw [hmap]
  apply List.Pairwise.filter
  rw [List.range_eq_range']
  exact List.pairwise_lt_range' 0 text.length

/-- C2 (amended): for every well-formed pattern and line, every returned
match satisfies start at most end and end at most the length of the line,
with text = line[start:end], and the sequence is ordered by non-decreasing
start offset; for literal patterns start < end holds and the start offsets
strictly increase.  Two parts of the original claim fail on the code:
matches are not pairwise non-overlapping (literal patterns report
overlapping occurrences, see the counterexample), and start < end cannot be
asserted for the regex arms, whose engines return empty matches for
nullable patterns. -/
theorem C2_match_invariants (p : PatternMatcher) (text : Str) (h : WF p) :
    (∀ m ∈ find_matches p text, m.start ≤ m.«end» ∧ m.«end» ≤ text.length ∧
        m.text = (text.drop m.start).take (m.«end» - m.start))
    ∧ List.Pairwise (fun a b : Match => a.start ≤ b.start) (find_matches p text)
    ∧ (∀ pat : Str, pat ≠ [] →
        (∀ m ∈ find_matches (.Literal pat) text, m.start < m.«end»)
        ∧ List.Pairwise (fun a b : Match => a.start < b.start)
            (find_matches (.Literal pat) text)) := by
  have main : (∀ m ∈ find_matches p text,
        m.start ≤ m.«end» ∧ m.«end» ≤ text.length ∧
          m.text = (text.drop m.start).take (m.«end» - m.start))
      ∧ List.Pairwise (fun a b : Match => a.start ≤ b.start)
          (find_matches p text) := by
    induction h with
    | @lit pat hne =>
        constructor
        · intro m hm
          obtain ⟨h1, h2, h3⟩ := literal_bounds pat text hne m hm
          exact ⟨Nat.le_of_lt h1, h2, h3⟩
        · exact (literal_pairwise_lt pat text hne).imp (fun hab => Nat.le_of_lt hab)
    | @basic find hc =>
        refine ⟨(hc text).1, ?_⟩
        refine ((hc text).2).imp_of_mem ?_
        intro a b ha hb hab
        have := ((hc text).1 a ha).1
        omega
    | @fancy find hc =>
        refine ⟨(hc text).1, ?_⟩
        refine ((hc text).2).imp_of_mem ?_
        intro a b ha hb hab
        have := ((hc text).1 a ha).1
        omega
    | @mult ms hms ih =>
        have hunf : find_matches (.Multiple ms) text =
            (if allMatchersHit ms text then
              match ms with
              | [] => []
              | m :: _ => find_matches m text
            else []) := by rw [find_matches.eq_def]
        cases hall : allMatchersHit ms text with
        | false => rw [hunf, if_neg (by simp [hall])]; simp
        | true =>
            cases ms with
            | nil => rw [hunf, if_pos (by simp [hall])]; simp
            | cons m rest =>
                have hm := ih m (by simp)
                rw [hunf, if_pos (by simp [hall])]
                exact hm
  refine ⟨main.1, main.2, ?_⟩
  intro pat hne
  exact ⟨fun m hm => (literal_bounds pat text hne m hm).1,
    literal_pairwise_lt pat text hne⟩

/-- Witness for the amended C2 at the literal pattern "a" on "ab". -/
theorem C2_witness :
    (['a'] ≠ ([] : Str)) ∧
      ((∀ m ∈ find_matches (.Literal ['a']) ['a', 'b'],
          m.start ≤ m.«end» ∧ m.«end» ≤ (['a', 'b'] : Str).length ∧
            m.text = ((['a', 'b'] : Str).drop m.start).take (m.«end» - m.start))
        ∧ List.Pairwise (fun a b : Match => a.start ≤ b.start)
            (find_matches (.Literal ['a']) ['a', 'b'])
        ∧ (∀ pat : Str, pat ≠ [] →
            (∀ m ∈ find_matches (.Literal pat) ['a', 'b'], m.start < m.«end»)
            ∧ List.Pairwise (fun a b : Match => a.start < b.start)
                (find_matches (.Literal pat) ['a', 'b']))) :=
  ⟨by decide, C2_match_invariants (.Literal ['a']) ['a', 'b'] (WF.lit (by decide))⟩

/-- The AND gate holds iff every sub-pattern matches the line. -/
theorem allMatchersHit_iff (ms : List PatternMatcher) (text : Str) :
    allMatchersHit ms text = true ↔ ∀ p ∈ ms, is_match p text = true := by
  induction ms with
  | nil => simp [allMatchersHit]
  | cons m rest ih =>
      have hunf : allMatchersHit (m :: rest) text
          = (!(find_matches m text).isEmpty && allMatchersHit rest text) := by
        rw [allMatchersHit.eq_def]
      rw [hunf]
      simp only [Bool.and_eq_true, ih, List.forall_mem_cons, is_match]

/-- C3: for an AND-composite pattern with sub-patterns `m0 :: rest`,
`is_match` holds iff every sub-pattern individually matches somewhere in
the line; when all match, `find_matches` returns exactly the first sub-
pattern's matches (spans are never merged across sub-patterns), and
otherwise it returns the empty sequence. -/
theorem C3_and_composition (m0 : PatternMatcher) (rest : List PatternMatcher) (text : Str) :
    (is_match (.Multiple (m0 :: rest)) text = true ↔
        ∀ p ∈ m0 :: rest, is_match p text = true)
    ∧ ((∀ p ∈ m0 :: rest, is_match p text = true) →
        find_matches (.Multiple (m0 :: rest)) text = find_matches m0 text)
    ∧ ((¬ ∀ p ∈ m0 :: rest, is_match p text = true) →
        find_matches (.Multiple (m0 :: rest)) text = []) := by
  have hunf : find_matches (.Multiple (m0 :: rest)) text =
      (if allMatchersHit (m0 :: rest) text then find_matches m0 text else []) := by
    rw [find_matches.eq_def]
  have hfalse : (¬ ∀ p ∈ m0 :: rest, is_match p text = true) →
      allMatchersHit (m0 :: rest) text = false := by
    intro h
    cases he : allMatchersHit (m0 :: rest) text
    · rfl
    · exact absurd ((allMatchersHit_iff _ _).mp he) h
  refine ⟨⟨?_, ?_⟩, ?_, ?_⟩
  · intro h
    by_contra hall
    rw [is_match, hunf, hfalse hall] at h
    simp at h
  · intro h
    rw [is_match, hunf, if_pos ((allMatchersHit_iff _ _).mpr h)]
    simpa [is_match] using h m0 (by simp)
  · intro h
    rw [hunf, if_pos ((allMatchersHit_iff _ _).mpr h)]
  · intro h
    rw [hunf, hfalse h]
    simp

/-- Witness for C3 at the AND pair ("a", "b") on "ab". -/
theorem C3_witness :
    (∀ p ∈ ([.Literal ['a'], .Literal ['b']] : List PatternMatcher),
        is_match p ['a', 'b'] = true)
    ∧ find_matches (.Multiple [.Literal ['a'], .Literal ['b']]) ['a', 'b']
        = find_matches (.Literal ['a']) ['a', 'b'] :=
  ⟨by decide, (C3_and_composition (.Literal ['a']) [.Literal ['b']] ['a', 'b']).2.1 (by decide)⟩

/-- C4 (code bug): answering `n` to the first pending result and `a` to the
second should confirm exactly the second result once, but the code resumes
the tail append at index `confirmed_results.len()` (= 1 here) instead of
after the current result, so the second result is returned twice. -/
theorem C4_all_after_skip_duplicates :
    interactive_replacement [exR0, exR1] ["n".toList, "a".toList] = [exR1, exR1]
    ∧ (interactive_replacement [exR0, exR1] ["n".toList, "a".toList]).count exR1 = 2
    ∧ exR0 ≠ exR1 := by decide

/-- The backward scan of `is_in_function` succeeds iff the nearest declaration
at or below the scan origin has a positive brace balance up to the query
line. -/
theorem is_in_functionAux_iff (lines : List Str) (q : Nat) (name : Str)
    (ext : Option Str) :
    ∀ i, (is_in_functionAux lines q name ext i = true ↔
      ∃ d, d ≤ i ∧ isNamedFnDecl lines name ext d = true ∧
        (∀ e, d < e → e ≤ i → isNamedFnDecl lines name ext e = false) ∧
        0 < braceSum lines d q)
  | 0 => by
      simp only [is_in_functionAux]
      by_cases h0 : isNamedFnDecl lines name ext 0 = true
      · rw [if_pos h0]
        constructor
        · intro h
          exact ⟨0, Nat.le_refl 0, h0, fun e he1 he2 => absurd he1 (by omega),
            of_decide_eq_true h⟩
        · rintro ⟨d, hd, _, _, hb⟩
          have hd0 : d = 0 := by omega
          subst hd0
          exact decide_eq_true hb
      · rw [if_neg h0]
        constructor
        · intro h; exact absurd h (by simp)
        · rintro ⟨d, hd, hdecl, _, _⟩
          have hd0 : d = 0 := by omega
          subst hd0
          exact absurd hdecl h0
  | i + 1 => by
      simp only [is_in_functionAux]
      by_cases hI : isNamedFnDecl lines name ext (i + 1) = true
      · rw [if_pos hI]
        constructor
        · intro h
          exact ⟨i + 1, Nat.le_refl _, hI, fun e he1 he2 => absurd he1 (by omega),
            of_decide_eq_true h⟩
        · rintro ⟨d, hd, hdecl, hmin, hb⟩
          rcases Nat.lt_or_ge d (i + 1) with hlt | hge
          · exact absurd hI (by rw [hmin (i + 1) (by omega) (Nat.le_refl _)]; simp)
          · have : d = i + 1 := by omega
            subst this
            exact decide_eq_true hb
      · rw [if_neg hI]
        rw [is_in_functionAux_iff lines q name ext i]
        constructor
        · rintro ⟨d, hd, hdecl, hmin, hb⟩
          refine ⟨d, by omega, hdecl, ?_, hb⟩
          intro e he1 he2
          rcases Nat.lt_or_ge e (i + 1) with hlt | hge
          · exact hmin e he1 (by omega)
          · have : e = i + 1 := by omega
            subst this
            exact Bool.eq_false_iff.mpr hI
        · rintro ⟨d, hd, hdecl, hmin, hb⟩
          have hdle : d ≤ i := by
            rcases Nat.lt_or_ge d (i + 1) with hlt | hge
            · omega
            · have : d = i + 1 := by omega
              subst this
              exact absurd hdecl hI
          exact ⟨d, hdle, hdecl, fun e he1 he2 => hmin e he1 (by omega), hb⟩

/-- C7: `in_named_function` holds at query line `q` iff some line `d` at most
`q` is a function-declaration line whose (trimmed) text contains the
target name, `d` is the nearest such line, and the sum over lines `d ..=
q` of open-brace count minus close-brace count - counting braces in every
line, including inside string or comment literals - is strictly positive;
the spec's two-line `fn main()` scenario is checked concretely. -/
theorem C7_in_named_function_scope (lines : List Str) (q : Nat) (name : Str)
    (ext : Option Str) :
    (is_in_function lines q name ext = true ↔
      ∃ d, d ≤ q ∧ isNamedFnDecl lines name ext d = true ∧
        (∀ e, d < e → e ≤ q → isNamedFnDecl lines name ext e = false) ∧
        0 < braceSum lines d q)
    ∧ is_in_function ["fn main() ".toList ++ [lbrace], "x()".toList] 1
        "main".toList (some "rs".toList) = true :=
  ⟨is_in_functionAux_iff lines q name ext q, by decide⟩

/-- C8 counterexample: with comments-only and imports-only both active on a
`.rs` file, the line "use x;" fails the comment predicate yet is emitted -
so emission is not the conjunction of the active structural predicates. -/
theorem C8_counterexample_no_conjunction :
    apply_structured_filters cli8 "use x;".toList (some "rs".toList) = "use x;".toList
    ∧ cli8.comments_only = true
    ∧ is_comment_line "use x;".toList (some "rs".toList) = false := by decide

/-- C8 (amended): when several structural options are active, a line is
emitted iff it satisfies the predicate of the last active option in the
fixed order comments-only, imports-only, functions, in-function, in-class;
the predicates of earlier active options are overwritten, not conjoined. -/
theorem C8_last_active_filter_decides (cli : Cli) (lines : List Str) (i : Nat)
    (line : Str) (ext : Option Str) (content : Str) :
    lineIncluded cli lines i line ext = lastActiveFilter cli lines i line ext
    ∧ apply_structured_filters cli content ext
      = List.intercalate ['\n']
          (((rustLines content).enum.filter
              (fun p => lastActiveFilter cli (rustLines content) p.1 p.2 ext)).map
            (fun p => p.2)) := by
  have hpt : ∀ (ls : List Str) (j : Nat) (l : Str),
      lineIncluded cli ls j l ext = lastActiveFilter cli ls j l ext := by
    intro ls j l
    simp only [lineIncluded, lastActiveFilter]
  refine ⟨hpt lines i line, ?_⟩
  have hfe : (rustLines content).enum.filter
        (fun p => lineIncluded cli (rustLines content) p.1 p.2 ext)
      = (rustLines content).enum.filter
        (fun p => lastActiveFilter cli (rustLines content) p.1 p.2 ext) := by
    apply List.filter_congr
    intro p hp
    exact hpt (rustLines content) p.1 p.2
  exact congrArg (fun l : List (Nat × Str) =>
    List.intercalate ['\n'] (l.map (fun p => p.2))) hfe

/-- `search_file` fails exactly on an unreadable file. -/
theorem search_file_none_iff (matcher : PatternMatcher) (cli : Cli)
    (f : SearchFile) : search_file matcher cli f = none ↔ f.content = none := by
  cases hc : f.content <;> simp [search_file, hc]

/-- The search fold ignores unreadable files and counts one searched file per
readable one. -/
theorem searchCore_foldl_skip (matcher : PatternMatcher) (cli : Cli) :
    ∀ (files : List SearchFile) (acc : SearchTally),
      List.foldl (searchStep matcher cli) acc files
          = List.foldl (searchStep matcher cli) acc
              (files.filter (fun f => f.content.isSome))
        ∧ (List.foldl (searchStep matcher cli) acc files).files_searched
          = acc.files_searched + (files.filter (fun f => f.content.isSome)).length
  | [], acc => ⟨rfl, by simp⟩
  | f :: rest, acc => by
      cases hc : f.content with
      | none =>
          have hsf : searchStep matcher cli acc f = acc := by
            simp [searchStep, search_file, hc]
          have ih := searchCore_foldl_skip matcher cli rest acc
          have hfil : (f :: rest).filter (fun f => f.content.isSome)
              = rest.filter (fun f => f.content.isSome) := by
            simp [List.filter_cons, hc]
          rw [hfil, List.foldl_cons, hsf]
          exact ih
      | some c =>
          have ih := searchCore_foldl_skip matcher cli rest (searchStep matcher cli acc f)
          have hstep : (searchStep matcher cli acc f).files_searched
              = acc.files_searched + 1 := by
            simp only [searchStep, search_file, hc]
            cases (FileMatch.new f.path
                (find_in_text (if cli.is_structured_search = true then
                  apply_structured_filters cli c f.ext else c) matcher)).has_matches <;>
              simp
          have hfil : (f :: rest).filter (fun f => f.content.isSome)
              = f :: rest.filter (fun f => f.content.isSome) := by
            simp [List.filter_cons, hc]
          rw [hfil, List.foldl_cons, List.foldl_cons]
          refine ⟨ih.1, ?_⟩
          rw [ih.2, hstep]
          simp [List.length_cons]
          omega

/-- C5: the search operation fails exactly when constructing the
`PatternMatcher` fails (`SearchEngine::new` propagates only that error,
before any file is read), the search body itself always succeeds, and a
candidate file whose read fails is simply skipped: it contributes nothing
to the result tally, `files_searched` counts only the readable files, and
the remaining files are processed exactly as if the unreadable one were
absent. -/
theorem C5_per_file_errors_not_fatal
    (compileB : Str → Bool → Except CGError (Str → List Match))
    (compileF : Str → Except CGError (Str → List Match)) (cli : Cli)
    (matcher : PatternMatcher) (files : List SearchFile) :
    ((∃ e, SearchEngine.new compileB compileF cli = .error e) ↔
        (∃ e, PatternMatcher.new compileB compileF cli = .error e))
    ∧ (∀ engine : SearchEngine, ∃ out, search engine files = .ok out)
    ∧ searchCore matcher cli files
      = searchCore matcher cli (files.filter (fun f => f.content.isSome))
    ∧ (searchCore matcher cli files).files_searched
      = (files.filter (fun f => f.content.isSome)).length := by
  refine ⟨?_, fun engine => ⟨_, rfl⟩, ?_, ?_⟩
  · cases hm : PatternMatcher.new compileB compileF cli <;>
      simp [SearchEngine.new, hm, Except.map]
  · exact (searchCore_foldl_skip matcher cli files ⟨[], 0, 0, 0⟩).1
  · have := (searchCore_foldl_skip matcher cli files ⟨[], 0, 0, 0⟩).2
    simpa [searchCore] using this

/-- Witness for C5 at a two-file batch with one unreadable file. -/
theorem C5_witness :
    (∃ out, search ⟨.Literal ['a'], cliOff⟩
        [⟨['p'], none, none⟩, ⟨['q'], none, some ['a']⟩] = .ok out) :=
  (C5_per_file_errors_not_fatal (fun _ _ => .error (.Regex []))
      (fun _ => .error (.FancyRegex [])) cliOff (.Literal ['a'])
      [⟨['p'], none, none⟩, ⟨['q'], none, some ['a']⟩]).2.1
    ⟨.Literal ['a'], cliOff⟩

/-- `strLt` is asymmetric. -/
theorem strLt_asymm : ∀ s t : Str, strLt s t = true → strLt t s = false
  | [], [], h => by simp [strLt] at h
  | [], b :: t, _ => rfl
  | a :: s, [], h => by simp [strLt] at h
  | a :: s, b :: t, h => by
      simp only [strLt] at h ⊢
      by_cases hab : a < b
      · rw [if_neg (lt_asymm hab), if_pos hab]
      · rw [if_neg hab] at h
        by_cases hba : b < a
        · rw [if_pos hba] at h
          exact absurd h (by simp)
        · rw [if_neg hba] at h
          rw [if_neg hba, if_neg hab]
          exact strLt_asymm s t h

/-- `strLt` is transitive. -/
theorem strLt_trans : ∀ s t u : Str,
    strLt s t = true → strLt t u = true → strLt s u = true
  | [], [], _, h1, _ => by simp [strLt] at h1
  | [], b :: t, [], _, h2 => by simp [strLt] at h2
  | [], b :: t, c :: u, _, _ => rfl
  | a :: s, [], _, h1, _ => by simp [strLt] at h1
  | a :: s, b :: t, [], _, h2 => by simp [strLt] at h2
  | a :: s, b :: t, c :: u, h1, h2 => by
      simp only [strLt] at h1 h2 ⊢
      by_cases hab : a < b
      · by_cases hbc : b < c
        · rw [if_pos (lt_trans hab hbc)]
        · rw [if_neg hbc] at h2
          by_cases hcb : c < b
          · rw [if_pos hcb] at h2
            exact absurd h2 (by simp)
          · rw [if_neg hcb] at h2
            have hbceq : b = c := le_antisymm (le_of_not_lt hcb) (le_of_not_lt hbc)
            subst hbceq
            rw [if_pos hab]
      · rw [if_neg hab] at h1
        by_cases hba : b < a
        · rw [if_pos hba] at h1
          exact absurd h1 (by simp)
        · rw [if_neg hba] at h1
          have habeq : a = b := le_antisymm (le_of_not_lt hba) (le_of_not_lt hab)
          subst habeq
          by_cases hbc : a < c
          · rw [if_pos hbc]
          · rw [if_neg hbc] at h2 ⊢
            by_cases hcb : c < a
            · rw [if_pos hcb] at h2
              exact absurd h2 (by simp)
            · rw [if_neg hcb] at h2 ⊢
              exact strLt_trans s t u h1 h2

/-- Two components unrelated by `strLt` in either direction are equal. -/
theorem strLt_connex : ∀ s t : Str,
    strLt s t = false → strLt t s = false → s = t
  | [], [], _, _ => rfl
  | [], b :: t, h1, _ => by simp [strLt] at h1
  | a :: s, [], _, h2 => by simp [strLt] at h2
  | a :: s, b :: t, h1, h2 => by
      simp only [strLt] at h1 h2
      by_cases hab : a < b
      · rw [if_pos hab] at h1
        exact absurd h1 (by simp)
      · rw [if_neg hab] at h1
        by_cases hba : b < a
        · rw [if_pos hba] at h2
          exact absurd h2 (by simp)
        · rw [if_neg hba] at h1
          rw [if_neg hba, if_neg hab] at h2
          have habeq : a = b := le_antisymm (le_of_not_lt hba) (le_of_not_lt hab)
          subst habeq
          rw [strLt_connex s t h1 h2]

/-- `componentsLe` is total. -/
theorem componentsLe_total : ∀ x y : List Str,
    componentsLe x y = true ∨ componentsLe y x = true
  | [], y => by left; cases y <;> rfl
  | c :: cs, [] => by right; rfl
  | c :: cs, d :: ds => by
      by_cases hcd : strLt c d = true
      · left
        simp [componentsLe, hcd]
      · by_cases hdc : strLt d c = true
        · right
          simp [componentsLe, hdc]
        · rcases componentsLe_total cs ds with h | h
          · left
            simp [componentsLe, hcd, hdc, h]
          · right
            simp [componentsLe, hcd, hdc, h]

/-- `componentsLe` is transitive. -/
theorem componentsLe_trans : ∀ x y z : List Str,
    componentsLe x y = true → componentsLe y z = true → componentsLe x z = true
  | [], _, z, _, _ => by cases z <;> rfl
  | c :: cs, [], _, h1, _ => by simp [componentsLe] at h1
  | c :: cs, d :: ds, [], _, h2 => by simp [componentsLe] at h2
  | c :: cs, d :: ds, e :: es, h1, h2 => by
      simp only [componentsLe] at h1 h2 ⊢
      by_cases hcd : strLt c d = true
      · by_cases hde : strLt d e = true
        · rw [if_pos (strLt_trans c d e hcd hde)]
        · rw [if_neg hde] at h2
          by_cases hed : strLt e d = true
          · rw [if_pos hed] at h2
            exact absurd h2 (by simp)
          · rw [if_neg hed] at h2
            have hdeq : d = e := strLt_connex d e (Bool.eq_false_iff.mpr hde)
              (Bool.eq_false_iff.mpr hed)
            subst hdeq
            rw [if_pos hcd]
      · rw [if_neg hcd] at h1
        by_cases hdc : strLt d c = true
        · rw [if_pos hdc] at h1
          exact absurd h1 (by simp)
        · rw [if_neg hdc] at h1
          have hceq : c = d := strLt_connex c d (Bool.eq_false_iff.mpr hcd)
            (Bool.eq_false_iff.mpr hdc)
          subst hceq
          by_cases hce : strLt c e = true
          · rw [if_pos hce]
          · rw [if_neg hce] at h2 ⊢
            by_cases hec : strLt e c = true
            · rw [if_pos hec] at h2
              exact absurd h2 (by simp)
            · rw [if_neg hec] at h2 ⊢
              exact componentsLe_trans cs ds es h1 h2

/-- `componentsLe` is antisymmetric. -/
theorem componentsLe_antisymm : ∀ x y : List Str,
    componentsLe x y = true → componentsLe y x = true → x = y
  | [], [], _, _ => rfl
  | [], d :: ds, _, h2 => by simp [componentsLe] at h2
  | c :: cs, [], h1, _ => by simp [componentsLe] at h1
  | c :: cs, d :: ds, h1, h2 => by
      simp only [componentsLe] at h1 h2
      by_cases hcd : strLt c d = true
      · have hdc : strLt d c = false := strLt_asymm c d hcd
        rw [if_neg (by simp [hdc]), if_pos hcd] at h2
        exact absurd h2 (by simp)
      · rw [if_neg hcd] at h1
        by_cases hdc : strLt d c = true
        · rw [if_pos hdc] at h1
          exact absurd h1 (by simp)
        · rw [if_neg hdc] at h1
          rw [if_neg hdc, if_neg hcd] at h2
          have hceq : c = d := strLt_connex c d (Bool.eq_false_iff.mpr hcd)
            (Bool.eq_false_iff.mpr hdc)
          subst hceq
          rw [componentsLe_antisymm cs ds h1 h2]

/-- `sortByPath` sorts by the component-wise path order. -/
theorem sortByPath_sorted (l : List FileMatch) :
    List.Pairwise (fun a b : FileMatch => pathLe a.path b.path = true) (sortByPath l) :=
  List.sorted_mergeSort
    (fun a b c hab hbc => by
      simp only [pathLe] at hab hbc ⊢
      exact componentsLe_trans _ _ _ hab hbc)
    (fun a b => by
      rcases componentsLe_total (splitComponents a.path) (splitComponents b.path)
        with h | h <;> simp [pathLe, h])
    l

/-- Two permuted result lists with pairwise distinct component lists sort
to the same list. -/
theorem sortByPath_eq_of_perm (l1 l2 : List FileMatch) (hperm : l1.Perm l2)
    (hdist : l1.Pairwise (fun a b =>
      splitComponents a.path ≠ splitComponents b.path)) :
    sortByPath l1 = sortByPath l2 := by
  have hp1 : (sortByPath l1).Perm l1 := List.mergeSort_perm l1 _
  have hp2 : (sortByPath l2).Perm l2 := List.mergeSort_perm l2 _
  have hps : (sortByPath l1).Perm (sortByPath l2) :=
    (hp1.trans hperm).trans hp2.symm
  have hsym : ∀ {x y : FileMatch},
      splitComponents x.path ≠ splitComponents y.path →
        splitComponents y.path ≠ splitComponents x.path :=
    fun h he => h he.symm
  have hd1 : (sortByPath l1).Pairwise (fun a b =>
      splitComponents a.path ≠ splitComponents b.path) :=
    (List.Perm.pairwise_iff hsym hp1).mpr hdist
  have hd2 : (sortByPath l2).Pairwise (fun a b =>
      splitComponents a.path ≠ splitComponents b.path) :=
    (List.Perm.pairwise_iff hsym hp2).mpr
      ((List.Perm.pairwise_iff hsym hperm).mp hdist)
  have hr1 := (sortByPath_sorted l1).and hd1
  have hr2 := (sortByPath_sorted l2).and hd2
  haveI : IsAntisymm FileMatch (fun a b =>
      pathLe a.path b.path = true ∧
        splitComponents a.path ≠ splitComponents b.path) :=
    ⟨fun a b hab hba => absurd (componentsLe_antisymm _ _ hab.1 hba.1) hab.2⟩
  exact List.eq_of_perm_of_sorted hps hr1 hr2

/-- A list sorted by the component-wise path order, with pairwise distinct
component lists, is THE sort of any of its permutations. -/
theorem sortByPath_eq (l r : List FileMatch) (hperm : l.Perm r)
    (hsorted : r.Pairwise (fun a b : FileMatch => pathLe a.path b.path = true))
    (hdist : r.Pairwise (fun a b =>
      splitComponents a.path ≠ splitComponents b.path)) :
    sortByPath l = r := by
  have hp1 : (sortByPath l).Perm l := List.mergeSort_perm l _
  have hps : (sortByPath l).Perm r := hp1.trans hperm
  have hsym : ∀ {x y : FileMatch},
      splitComponents x.path ≠ splitComponents y.path →
        splitComponents y.path ≠ splitComponents x.path :=
    fun h he => h he.symm
  have hd1 : (sortByPath l).Pairwise (fun a b =>
      splitComponents a.path ≠ splitComponents b.path) :=
    (List.Perm.pairwise_iff hsym hps).mpr hdist
  have hr1 := (sortByPath_sorted l).and hd1
  have hr2 := hsorted.and hdist
  haveI : IsAntisymm FileMatch (fun a b =>
      pathLe a.path b.path = true ∧
        splitComponents a.path ≠ splitComponents b.path) :=
    ⟨fun a b hab hba => absurd (componentsLe_antisymm _ _ hab.1 hba.1) hab.2⟩
  exact List.eq_of_perm_of_sorted hps hr1 hr2

/-- C6 counterexample: `PathBuf::cmp` compares component-wise, so the sort
of searcher.rs line 127 puts "src/a/b.rs" before "src/a.txt" (the component
"a" precedes "a.txt"), while lexicographic order on the path's STRING form
puts "src/a.txt" first (the dot byte precedes the separator byte): the
program's sorted output has an adjacent pair violating the claimed
string-form ordering. -/
theorem C6_counterexample_component_vs_string_order :
    sortByPath [fmSrcATxt, fmSrcABrs] = [fmSrcABrs, fmSrcATxt]
    ∧ strLe fmSrcABrs.path fmSrcATxt.path = false :=
  ⟨sortByPath_eq _ _ (by decide) (by decide) (by decide), by decide⟩

/-- C6 (amended): after all parallel per-file work completes the result
list is sorted by `PathBuf::cmp`, which compares paths COMPONENT-WISE
(components byte-wise), not by the path's string form; for any completion
order of the workers (any permutation of a result set with pairwise
distinct component lists) the sorted output is identical, adjacent results
satisfy the component-wise path order, and `search` returns exactly this
sorted list.  The original claim's string-form ordering of adjacent results
is refuted by the counterexample. -/
theorem C6_component_order_deterministic (l1 l2 : List FileMatch)
    (hperm : l1.Perm l2)
    (hdist : l1.Pairwise (fun a b =>
      splitComponents a.path ≠ splitComponents b.path)) :
    sortByPath l1 = sortByPath l2
    ∧ List.Chain' (fun a b : FileMatch => pathLe a.path b.path = true) (sortByPath l1)
    ∧ ∀ (engine : SearchEngine) (files : List SearchFile), ∃ stats,
        search engine files
          = .ok (sortByPath (searchCore engine.matcher engine.cli files).results,
              stats) :=
  ⟨sortByPath_eq_of_perm l1 l2 hperm hdist,
    (sortByPath_sorted l1).chain',
    fun engine files => ⟨_, rfl⟩⟩

/-- Witness for the amended C6 at a two-element result list and its
reversal. -/
theorem C6_witness :
    ([exFmB, exFmA].Perm [exFmA, exFmB]
      ∧ List.Pairwise (fun a b : FileMatch =>
          splitComponents a.path ≠ splitComponents b.path) [exFmB, exFmA])
    ∧ sortByPath [exFmB, exFmA] = sortByPath [exFmA, exFmB]
    ∧ List.Chain' (fun a b : FileMatch => pathLe a.path b.path = true)
        (sortByPath [exFmB, exFmA]) :=
  ⟨⟨by decide, by decide⟩,
    (C6_component_order_deterministic [exFmB, exFmA] [exFmA, exFmB]
        (by decide) (by decide)).1,
    (C6_component_order_deterministic [exFmB, exFmA] [exFmA, exFmB]
        (by decide) (by decide)).2.1⟩

/-- With no occurrence of the needle, the fuel-indexed replace is the
identity. -/
theorem strReplaceFuel_no_occurrence (pat rep : Str) :
    ∀ (fuel : Nat) (s : Str), containsSub s pat = false →
      strReplaceFuel pat rep fuel s = s
  | 0, s, _ => rfl
  | fuel + 1, [], _ => rfl
  | fuel + 1, c :: rest, h => by
      have hnone : strFind pat (c :: rest) = none := by
        cases hf : strFind pat (c :: rest) with
        | none => rfl
        | some i => rw [containsSub, hf] at h; simp at h
      have h0 : ¬ pat.isPrefixOf (c :: rest) = true := by
        have := strFind_none pat _ hnone 0
        simpa using this
      have htail : containsSub rest pat = false := by
        simp only [strFind] at hnone
        rw [if_neg h0] at hnone
        rw [containsSub, Option.map_eq_none'.mp hnone]
        rfl
      rw [strReplaceFuel]
      rw [if_neg (by intro hc; exact h0 hc.2)]
      rw [strReplaceFuel_no_occurrence pat rep fuel rest htail]

/-- With no occurrence of the needle, `strReplace` is the identity. -/
theorem strReplace_no_occurrence (pat rep s : Str)
    (h : containsSub s pat = false) : strReplace pat rep s = s :=
  strReplaceFuel_no_occurrence pat rep s.length s h

/-- C9: when the template contains neither whole-match token,
`process_replacement` returns the template unchanged for every matched
text, and the computed (new_content, replacements_made, lines_affected)
triple is a pure function of the original content, the pattern and the
template - computing it twice on the same original content yields the
identical triple. -/
theorem C9_replacement_deterministic (template : Str)
    (h0 : containsSub template dollar0 = false)
    (h1 : containsSub template dollarBrace0 = false) :
    (∀ matched_text : Str, process_replacement template matched_text = template)
    ∧ ∀ (matcher : PatternMatcher) (content : Str),
        replace_in_file_content matcher template content
          = replace_in_file_content matcher template content := by
  constructor
  · intro matched_text
    unfold process_replacement
    rw [strReplace_no_occurrence _ _ _ h0, strReplace_no_occurrence _ _ _ h1]
  · intro matcher content
    rfl

/-- Witness for C9 at the token-free template "xy". -/
theorem C9_witness :
    containsSub ['x', 'y'] dollar0 = false
    ∧ containsSub ['x', 'y'] dollarBrace0 = false
    ∧ process_replacement ['x', 'y'] ['a', 'b'] = ['x', 'y'] :=
  ⟨by decide, by decide,
    (C9_replacement_deterministic ['x', 'y'] (by decide) (by decide)).1 ['a', 'b']⟩

/-- The transformed line, spelled out by cases on whether the line has
matches. -/
theorem replaceLine_fst (matcher : PatternMatcher) (template line : Str) :
    (replaceLine matcher template line).1
      = if (find_matches matcher line).isEmpty then line
        else applyMatches template line (find_matches matcher line) line 0 := by
  unfold replaceLine
  cases hms : (find_matches matcher line).isEmpty <;> simp [hms]

/-- The new-lines component of the line loop is a per-line map. -/
theorem replaceLinesAux_fst (matcher : PatternMatcher) (template : Str) :
    ∀ l : List (Nat × Str),
      (replaceLinesAux matcher template l).1
        = l.map (fun p => (replaceLine matcher template p.2).1)
  | [] => rfl
  | (ln, line) :: rest => by
      have ih := replaceLinesAux_fst matcher template rest
      simp only [replaceLinesAux, List.map_cons]
      rw [replaceLine_fst]
      cases hms : (find_matches matcher line).isEmpty <;> simp [hms, ih]

/-- C10: `replace_in_file` builds `new_content` by splitting the original
content into lines (Rust `str::lines`, which drops a final line terminator
and the carriage return of every CRLF), transforming each line, and
joining with a single newline; a line without a match is carried over
verbatim, yet the original's trailing newline and CRLF terminators do not
survive, as the concrete run on "a\r\nfoo\n" (pattern "foo", template
"foo") shows: the rewritten content is "a\nfoo". -/
theorem C10_line_join_frame_effect (matcher : PatternMatcher) (template : Str) :
    (∀ content : Str,
        (replace_in_file_content matcher template content).1
          = List.intercalate ['\n'] ((rustLines content).map
              (fun l => (replaceLine matcher template l).1)))
    ∧ (∀ line : Str, find_matches matcher line = [] →
        (replaceLine matcher template line).1 = line)
    ∧ (∃ r, replace_in_file (.Literal "foo".toList) "foo".toList ['p']
          ("a\r\nfoo\n".toList) = some r
        ∧ r.new_content = "a\nfoo".toList
        ∧ r.new_content ≠ r.original_content) := by
  refine ⟨?_, ?_, ?_⟩
  · intro content
    simp only [replace_in_file_content]
    rw [replaceLinesAux_fst]
    rw [show (fun p : Nat × Str => (replaceLine matcher template p.2).1)
        = (fun l => (replaceLine matcher template l).1) ∘ Prod.snd from rfl]
    rw [← List.map_map, List.enum_map_snd]
  · intro line h
    simp [replaceLine, h]
  · exact ⟨⟨['p'], "a\r\nfoo\n".toList, "a\nfoo".toList, 1, [2]⟩,
      by decide, by decide, by decide⟩

/-- Witness for C10 at a line without a match. -/
theorem C10_witness :
    find_matches (.Literal ['z']) ['q'] = []
    ∧ (replaceLine (.Literal ['z']) [] ['q']).1 = ['q'] :=
  ⟨by decide, (C10_line_join_frame_effect (.Literal ['z']) []).2.1 ['q'] (by decide)⟩


/-- Witness for C7 at the spec's two-line `fn main()` scenario. -/
theorem C7_witness :
    is_in_function ["fn main() ".toList ++ [lbrace], "x()".toList] 1
        "main".toList (some "rs".toList) = true :=
  (C7_in_named_function_scope [] 0 [] none).2

/-- Witness for C8 (amended) at the comments-plus-imports configuration. -/
theorem C8_witness :
    lineIncluded cli8 ["use x;".toList] 0 "use x;".toList (some "rs".toList)
      = lastActiveFilter cli8 ["use x;".toList] 0 "use x;".toList
          (some "rs".toList) :=
  (C8_last_active_filter_decides cli8 ["use x;".toList] 0 "use x;".toList
    (some "rs".toList) []).1

end CodeGrep
